import Mathlib

/-!
Shallow embedding of the adaptive psychometric test engine:
`src/models/scorer.py` (`ResponseScorer`) and
`src/models/adaptive_logic.py` (`AdaptiveTestLogic`).

Python dicts become Lean structures with `Option` fields for keys accessed
via `dict.get`; floats become `ℚ`; Python dict results (`domains`,
`interpretations`) become association lists in insertion order; the
`random.choice` calls are modelled by an extra `Nat` seed parameter that
picks an index into the candidate list (any concrete seed reproduces one
possible run; `random.choice` always returns an element of a non-empty
list, which is all the claims depend on).
-/

namespace PsychoTest

/-- A test item, per the dict shape used by the code: `id` and `text` are
accessed unconditionally (`item["id"]`, `item["text"]`); `type`, `domain`
and `difficulty` are accessed with `item.get`, hence `Option`. -/
structure Item where
  id : Nat
  text : String
  type : Option String
  domain : Option String
  difficulty : Option ℚ
deriving DecidableEq, Repr

/-- Python `needle in haystack` on strings: substring containment,
over the character lists. -/
def isSubstr (needle : List Char) : List Char → Bool
  | [] => needle.isEmpty
  | c :: rest => needle.isPrefixOf (c :: rest) || isSubstr needle rest

/-- Python `s.lower()`, over the character list (ASCII case mapping,
which covers every string the code compares). -/
def pyLower (s : List Char) : List Char := s.map Char.toLower

/-- The negation marker checked by `score_response`:
the five characters d, o, n, apostrophe, t. -/
def negMarker : List Char := ['d', 'o', 'n', Char.ofNat 39, 't']

/-- Python `s.startswith(pre)`. -/
def pyStartsWith (s pre : String) : Bool := pre.toList.isPrefixOf s.toList

/-- `self.likert_weights["likert_5"]`: the inner weight dict, as a partial
map from response strings to scores. -/
def likert5Weights (response : String) : Option ℚ :=
  if response = "1" then some 0
  else if response = "2" then some (1/4)
  else if response = "3" then some (1/2)
  else if response = "4" then some (3/4)
  else if response = "5" then some 1
  else none

/-- `self.likert_weights.get(item_type, self.likert_weights["likert_5"])`:
the outer dict has the single key `"likert_5"`, and its value is also the
fallback, so every item type resolves to the `likert_5` weight table. -/
def likertWeightsFor (itemType : String) : String → Option ℚ :=
  if itemType = "likert_5" then likert5Weights else likert5Weights

/-- The raw Likert score: `weights.get(response, 0.5)` in
`score_response`, before any domain inversion. -/
def rawLikertScore (itemType response : String) : ℚ :=
  (likertWeightsFor itemType response).getD (1/2)

/-- The raw (pre-inversion) score the item/response pair receives inside
`score_response`, with the item's type defaulted as the code does. -/
def rawScoreOf (item : Item) (response : String) : ℚ :=
  rawLikertScore (item.type.getD "likert_5") response

/-- `ResponseScorer.score_response(item, response)`. -/
def score_response (item : Item) (response : String) : ℚ :=
  let itemType := item.type.getD "likert_5"
  if pyStartsWith itemType "likert" then
    let rawScore := rawLikertScore itemType response
    if (item.domain = some "sociability" ∨ item.domain = some "conscientiousness")
        ∧ isSubstr negMarker (pyLower item.text.toList) = false then
      1 - rawScore
    else
      rawScore
  else
    1/2

/-- `ResponseScorer.calculate_domain_score(responses, domain)`. -/
def calculate_domain_score (responses : List (Item × String)) (domain : String) : ℚ :=
  let domainResponses := responses.filter (fun p => p.1.domain == some domain)
  if domainResponses.isEmpty then 1/2
  else (domainResponses.map (fun p => score_response p.1 p.2)).sum / domainResponses.length

/-- The keys of `self.domain_ranges`; every entry carries the same
thresholds `low 0.0, moderate 0.3, high 0.7`. -/
def knownDomains : List String :=
  ["anxiety", "depression", "stress", "attention", "sociability", "conscientiousness", "fatigue"]

/-- `self.domain_ranges` as a partial map: a known domain yields the
triple (low, moderate, high) = (0, 3/10, 7/10); other keys are absent. -/
def domainRanges (domain : String) : Option (ℚ × ℚ × ℚ) :=
  if domain ∈ knownDomains then some (0, 3/10, 7/10) else none

/-- The interpretation level assigned in `calculate_overall_score` from a
range triple and a domain score. -/
def interpLevel (ranges : ℚ × ℚ × ℚ) (score : ℚ) : String :=
  if score < ranges.2.1 then "low"
  else if score < ranges.2.2 then "moderate"
  else "high"

/-- The Score Report dict returned by `calculate_overall_score`, with the
two inner dicts as association lists in insertion order. -/
structure Report where
  overall : ℚ
  domains : List (String × ℚ)
  interpretations : List (String × String)
deriving DecidableEq, Repr

/-- Python `set(...)` of the domains appearing in the responses, realised
as the deduplicated insertion-order list (a deterministic representative
of the set; the claims only depend on membership and lookups). -/
def historyDomains (responses : List (Item × String)) : List String :=
  responses.foldl
    (fun acc p => match p.1.domain with
      | some d => if d ∈ acc then acc else acc ++ [d]
      | none => acc) []

/-- `ResponseScorer.calculate_overall_score(responses)`. -/
def calculate_overall_score (responses : List (Item × String)) : Report :=
  let domains := historyDomains responses
  let domainScores := domains.map (fun d => (d, calculate_domain_score responses d))
  let overall := if domainScores.isEmpty then 1/2
    else (domainScores.map (fun p => p.2)).sum / domainScores.length
  let interpretations := domainScores.filterMap
    (fun p => match domainRanges p.1 with
      | some ranges => some (p.1, interpLevel ranges p.2)
      | none => none)
  { overall := overall, domains := domainScores, interpretations := interpretations }

/-! ## AdaptiveTestLogic (`src/models/adaptive_logic.py`) -/

/-- Python `min(l, key=k)` as a fold from a first element: the running
best is replaced only on a strictly smaller key, so the first minimum
encountered wins, exactly as Python's `min` behaves. -/
def pyFold {α β : Type} [LinearOrder β] (key : α → β) (a : α) (l : List α) : α :=
  l.foldl (fun best x => if key x < key best then x else best) a

/-- Python `min(l, key=k)` on a possibly-empty list (`none` on `[]`,
where Python would raise; the code only calls it on non-empty lists). -/
def pyMin {α β : Type} [LinearOrder β] (key : α → β) : List α → Option α
  | [] => none
  | a :: l => some (pyFold key a l)

/-- The spec's wording of the same selection rule: the first element of
the list whose key is a minimum over the whole list. -/
def specFirstMin {α β : Type} [LinearOrder β] (key : α → β) (l : List α) : Option α :=
  l.find? (fun x => decide (∀ y ∈ l, key x ≤ key y))

/-- The session state held by an `AdaptiveTestLogic` instance:
`self.items`, `self.current_ability`, `self.answered_items` (a Python set
of ids, modelled as a duplicate-free insertion-order list) and
`self.response_history`. -/
structure Session where
  items : List Item
  current_ability : ℚ
  answered_items : List Nat
  response_history : List (Item × String)
deriving DecidableEq, Repr

/-- `AdaptiveTestLogic.__init__(items, initial_ability)`. -/
def initSession (items : List Item) (initialAbility : ℚ) : Session :=
  { items := items, current_ability := initialAbility,
    answered_items := [], response_history := [] }

/-- The keys of `self.domain_items`, the dict built in `__init__`:
each distinct declared domain, in first-occurrence (insertion) order. -/
def bankDomains (items : List Item) : List String :=
  items.foldl
    (fun acc it => match it.domain with
      | some d => if d ∈ acc then acc else acc ++ [d]
      | none => acc) []

/-- `self.domain_items[d]`: the bank items of domain `d`, in bank order,
exactly the list the `__init__` loop accumulates for key `d`. -/
def domain_items (items : List Item) (d : String) : List Item :=
  items.filter (fun it => it.domain == some d)

/-- `domain_counts.get(d, 0)` in `select_next_item`: how many history
entries carry domain `d`. -/
def domain_counts (hist : List (Item × String)) (d : String) : Nat :=
  (hist.filter (fun p => p.1.domain == some d)).length

/-- The `remaining_items` list of `select_next_item`: bank items whose id
is not yet answered. -/
def remainingItems (s : Session) : List Item :=
  s.items.filter (fun it => !(s.answered_items.contains it.id))

/-- The `available_items` list of `select_next_item`: unanswered items of
the target domain. -/
def availableIn (s : Session) (d : String) : List Item :=
  (domain_items s.items d).filter (fun it => !(s.answered_items.contains it.id))

/-- `random.choice(l)`: the seed `r` picks one index; on a non-empty list
this returns an element of the list, on `[]` it returns `none` (the code
never reaches `random.choice` with an empty list). -/
def randomChoice (r : Nat) (l : List Item) : Option Item := l.get? (r % l.length)

/-- The `domain_scores` dict of `select_next_item`: the report's domain
map when a scorer was passed and the history is non-empty, else empty. -/
def domainScoresOf (useScorer : Bool) (hist : List (Item × String)) : List (String × ℚ) :=
  if useScorer && !hist.isEmpty then (calculate_overall_score hist).domains else []

/-- The `target_domain` of a `select_next_item` call:
`min(all_domains, key=lambda d: domain_counts.get(d, 0))`, or `none`
when the bank declares no domain. -/
def targetDomainOf (s : Session) : Option String :=
  pyMin (domain_counts s.response_history) (bankDomains s.items)

/-- Python `abs` on ℚ. -/
def absq (x : ℚ) : ℚ := if x < 0 then -x else x

/-- The `domain_ability` of `select_next_item`:
`domain_scores.get(target_domain, self.current_ability)`. -/
def domainAbility (useScorer : Bool) (s : Session) (target : String) : ℚ :=
  (List.lookup target (domainScoresOf useScorer s.response_history)).getD s.current_ability

/-- The selection key of `select_next_item`:
`abs(item.get("difficulty", 0.5) - domain_ability)`. -/
def itemKey (ability : ℚ) (it : Item) : ℚ := absq (it.difficulty.getD (1/2) - ability)

/-- `AdaptiveTestLogic.select_next_item(scorer)`: `useScorer` records
whether a scorer argument was passed, `r` feeds the `random.choice`
fallbacks. -/
def select_next_item (r : Nat) (useScorer : Bool) (s : Session) : Option Item :=
  match targetDomainOf s with
  | none => randomChoice r (remainingItems s)
  | some target =>
    match availableIn s target with
    | [] => randomChoice r (remainingItems s)
    | a :: rest => some (pyFold (itemKey (domainAbility useScorer s target)) a rest)

/-- `AdaptiveTestLogic.update_ability(item, response, scorer)`: adds the
id to the answered set, appends to the history, recomputes the report
over the whole history, stores its `overall` as the new ability, and
returns the report together with the resulting session state. -/
def update_ability (item : Item) (response : String) (s : Session) : Report × Session :=
  let answered := if item.id ∈ s.answered_items then s.answered_items
    else s.answered_items ++ [item.id]
  let hist := s.response_history ++ [(item, response)]
  let scores := calculate_overall_score hist
  (scores,
   { items := s.items, current_ability := scores.overall,
     answered_items := answered, response_history := hist })

/-- `select_next_item` as a state transformer: the method body binds only
locals and never assigns a `self` field, so its translation returns the
selected item together with the session it was given. -/
def select_next_item_op (r : Nat) (useScorer : Bool) (s : Session) : Option Item × Session :=
  (select_next_item r useScorer s, s)

/-- The claim's `domain_ability`, as amended: the scorer's per-domain
score for the target domain when a scorer and a non-empty history are
available and the target domain occurs in the history, the session's
scalar ability otherwise. -/
def amendedDomainAbility (useScorer : Bool) (s : Session) (target : String) : ℚ :=
  if useScorer = true ∧ s.response_history ≠ [] ∧ target ∈ historyDomains s.response_history
  then calculate_domain_score s.response_history target
  else s.current_ability

/-! ## Concrete inputs used by witnesses and counterexamples -/

/-- The bank of the spec's worked example: three anxiety items of
difficulty 0.2, 0.5 and 0.8. -/
def exItem1 : Item := ⟨1, "q1", some "likert_5", some "anxiety", some (1/5)⟩

def exItem2 : Item := ⟨2, "q2", some "likert_5", some "anxiety", some (1/2)⟩

def exItem3 : Item := ⟨3, "q3", some "likert_5", some "anxiety", some (4/5)⟩

/-- The fresh session of the spec's worked example, initial ability 0.5. -/
def exSession : Session := initSession [exItem1, exItem2, exItem3] (1/2)

/-- A two-domain bank: one item of domain alpha, two of domain beta. -/
def cItemA : Item := ⟨1, "a1", some "likert_5", some "alpha", some (1/2)⟩

def cItemB : Item := ⟨2, "b1", some "likert_5", some "beta", some (2/5)⟩

def cItemC : Item := ⟨3, "b2", some "likert_5", some "beta", some (9/10)⟩

def cBank : List Item := [cItemA, cItemB, cItemC]

/-- The session reached from a fresh two-domain session after answering
the alpha item with response 5 (ability becomes 1). -/
def cSession : Session := (update_ability cItemA "5" (initSession cBank (1/2))).2

def cLikert7 : Item := ⟨4, "q7", some "likert_7", some "anxiety", some (1/2)⟩

def cFreeText : Item := ⟨5, "ft", some "free_text", some "anxiety", some (1/2)⟩

def cSoc : Item := ⟨6, "xyz", some "likert_5", some "sociability", some (1/2)⟩

def cUnknownDomain : Item := ⟨7, "u", some "likert_5", some "zzz", some (1/2)⟩

def cAnx : Item := ⟨8, "a", some "likert_5", some "anxiety", some (1/2)⟩

def cNoType : Item := ⟨9, "nt", none, some "anxiety", some (1/2)⟩

/-! ## General lemmas -/

theorem find?_congr {α : Type} (p q : α → Bool) :
    ∀ l : List α, (∀ x ∈ l, p x = q x) → l.find? p = l.find? q := by
  intro l
  induction l with
  | nil => intro _; rfl
  | cons a t ih =>
    intro h
    have ha := h a (List.mem_cons_self a t)
    by_cases hp : p a = true
    · rw [List.find?_cons_of_pos _ hp, List.find?_cons_of_pos _ (ha ▸ hp)]
    · have hp' : p a = false := Bool.eq_false_iff.mpr hp
      rw [List.find?_cons_of_neg _ hp, List.find?_cons_of_neg _ (by rw [← ha]; exact hp)]
      exact ih (fun x hx => h x (List.mem_cons_of_mem a hx))

theorem find?_cons_true {α : Type} (p : α → Bool) {a : α} {l : List α} (h : p a = true) :
    List.find? p (a :: l) = some a := by
  simp [List.find?, h]

theorem find?_cons_false {α : Type} (p : α → Bool) {a : α} {l : List α} (h : p a = false) :
    List.find? p (a :: l) = List.find? p l := by
  simp [List.find?, h]

/-- Python's `min` from a seed element returns the first element of the
seeded list attaining the minimal key. -/
theorem pyFold_eq_specFirstMin {α β : Type} [LinearOrder β] (key : α → β) :
    ∀ (l : List α) (a : α), specFirstMin key (a :: l) = some (pyFold key a l) := by
  intro l
  induction l with
  | nil =>
    intro a
    simp [specFirstMin, pyFold, List.find?]
  | cons b t ih =>
    intro a
    have hfold : pyFold key a (b :: t) = pyFold key (if key b < key a then b else a) t := by
      simp [pyFold, List.foldl]
    rw [hfold]
    rw [← ih (if key b < key a then b else a)]
    by_cases hba : key b < key a
    · simp only [if_pos hba]
      unfold specFirstMin
      have hpa : (decide (∀ y ∈ a :: b :: t, key a ≤ key y)) = false := by
        simp only [decide_eq_false_iff_not]
        intro hall
        exact absurd (hall b (List.mem_cons_of_mem a (List.mem_cons_self b t))) (not_le.mpr hba)
      rw [find?_cons_false (fun x => decide (∀ y ∈ a :: b :: t, key x ≤ key y)) hpa]
      exact find?_congr _ _ (b :: t) (fun x hx => by
        simp only [decide_eq_decide]
        constructor
        · intro hall y hy; exact hall y (List.mem_cons_of_mem a hy)
        · intro hall y hy
          rcases List.mem_cons.mp hy with h | h
          · rw [h]
            exact le_trans (hall b (List.mem_cons_self b t)) (le_of_lt hba)
          · exact hall y h)
    · simp only [if_neg hba]
      have hab : key a ≤ key b := le_of_not_lt hba
      unfold specFirstMin
      have hiff : ∀ x, (∀ y ∈ a :: b :: t, key x ≤ key y) ↔ (∀ y ∈ a :: t, key x ≤ key y) := by
        intro x
        constructor
        · intro hall y hy
          rcases List.mem_cons.mp hy with h | h
          · rw [h]; exact hall a (List.mem_cons_self a _)
          · exact hall y (List.mem_cons_of_mem a (List.mem_cons_of_mem b h))
        · intro hall y hy
          rcases List.mem_cons.mp hy with h | h
          · rw [h]; exact hall a (List.mem_cons_self a _)
          rcases List.mem_cons.mp h with h' | h'
          · rw [h']
            exact le_trans (hall a (List.mem_cons_self a _)) hab
          · exact hall y (List.mem_cons_of_mem a h')
      by_cases hpa : (∀ y ∈ a :: b :: t, key a ≤ key y)
      · rw [find?_cons_true (fun x => decide (∀ y ∈ a :: b :: t, key x ≤ key y)) (by simpa using hpa)]
        rw [find?_cons_true (fun x => decide (∀ y ∈ a :: t, key x ≤ key y))
          (by simp only [decide_eq_true_eq]; exact (hiff a).mp hpa)]
      · have hpb : ¬ (∀ y ∈ a :: b :: t, key b ≤ key y) := by
          intro hall
          apply hpa
          intro y hy
          exact le_trans hab (hall y hy)
        have hpa2 : ¬ (∀ y ∈ a :: t, key a ≤ key y) := fun h => hpa ((hiff a).mpr h)
        rw [find?_cons_false (fun x => decide (∀ y ∈ a :: b :: t, key x ≤ key y)) (by simpa using hpa)]
        rw [find?_cons_false (fun x => decide (∀ y ∈ a :: b :: t, key x ≤ key y)) (by simpa using hpb)]
        rw [find?_cons_false (fun x => decide (∀ y ∈ a :: t, key x ≤ key y)) (by simpa using hpa2)]
        exact find?_congr _ _ t (fun x hx => by
          simp only [decide_eq_decide]
          constructor
          · intro hall y hy
            rcases List.mem_cons.mp hy with h | h
            · rw [h]; exact hall a (List.mem_cons_self a _)
            · exact hall y (List.mem_cons_of_mem a (List.mem_cons_of_mem b h))
          · intro hall y hy
            rcases List.mem_cons.mp hy with h | h
            · rw [h]; exact hall a (List.mem_cons_self a _)
            rcases List.mem_cons.mp h with h' | h'
            · rw [h']
              exact le_trans (hall a (List.mem_cons_self a _)) hab
            · exact hall y (List.mem_cons_of_mem a h'))

theorem pyMin_eq_specFirstMin {α β : Type} [LinearOrder β] (key : α → β) (l : List α) :
    pyMin key l = specFirstMin key l := by
  cases l with
  | nil => rfl
  | cons a t => rw [pyMin, pyFold_eq_specFirstMin]

theorem specFirstMin_mem {α β : Type} [LinearOrder β] {key : α → β} {l : List α} {a : α}
    (h : specFirstMin key l = some a) : a ∈ l :=
  List.mem_of_find?_eq_some h

theorem specFirstMin_min {α β : Type} [LinearOrder β] {key : α → β} {l : List α} {a : α}
    (h : specFirstMin key l = some a) : ∀ y ∈ l, key a ≤ key y := by
  have := List.find?_some h
  simpa using this

/-- Looking a key up in an association list whose entries are generated
key-by-key: the first matching entry carries the generated value. -/
theorem lookup_filterMap_keyed {α : Type} (g : String → Option α) :
    ∀ (l : List String) (d : String),
      List.lookup d (l.filterMap (fun k => (g k).map (fun v => (k, v)))) =
        if d ∈ l then g d else none := by
  intro l
  induction l with
  | nil => intro d; simp
  | cons k t ih =>
    intro d
    have hstep : ∀ rest : List (String × α),
        (k :: t).filterMap (fun k => (g k).map (fun v => (k, v))) =
          (match g k with
            | none => t.filterMap (fun k => (g k).map (fun v => (k, v)))
            | some v => (k, v) :: t.filterMap (fun k => (g k).map (fun v => (k, v)))) := by
      intro _
      cases hgk : g k <;> simp [List.filterMap_cons, hgk]
    by_cases hdk : d = k
    · subst hdk
      cases hgk : g d with
      | none =>
        rw [hstep [], hgk, ih d]
        by_cases hdt : d ∈ t
        · rw [if_pos hdt, if_pos (List.mem_cons_self d t)]
          exact hgk
        · rw [if_neg hdt, if_pos (List.mem_cons_self d t)]
      | some v =>
        rw [hstep [], hgk]
        have hlkv : List.lookup d ((d, v) :: t.filterMap (fun k => (g k).map (fun v => (k, v)))) =
            some v := by
          simp [List.lookup]
        rw [hlkv, if_pos (List.mem_cons_self d t)]
    · have hbeq : (d == k) = false := by
        simp [hdk]
      have hmem : (d ∈ k :: t) ↔ (d ∈ t) := by
        simp [List.mem_cons, hdk]
      cases hgk : g k with
      | none =>
        rw [hstep [], hgk, ih d]
        by_cases hdt : d ∈ t
        · rw [if_pos hdt, if_pos (hmem.mpr hdt)]
        · rw [if_neg hdt, if_neg (fun h => hdt (hmem.mp h))]
      | some v =>
        rw [hstep [], hgk]
        have hlk : List.lookup d ((k, v) :: t.filterMap (fun k => (g k).map (fun v => (k, v)))) =
            List.lookup d (t.filterMap (fun k => (g k).map (fun v => (k, v)))) := by
          simp [List.lookup, hbeq]
        rw [hlk, ih d]
        by_cases hdt : d ∈ t
        · rw [if_pos hdt, if_pos (hmem.mpr hdt)]
        · rw [if_neg hdt, if_neg (fun h => hdt (hmem.mp h))]

theorem lookup_map_keyed {α : Type} (f : String → α) (l : List String) (d : String) :
    List.lookup d (l.map (fun k => (k, f k))) = if d ∈ l then some (f d) else none := by
  have : l.map (fun k => (k, f k)) =
      l.filterMap (fun k => ((some (f k) : Option α)).map (fun v => (k, v))) := by
    induction l with
    | nil => rfl
    | cons a t ih => simp [List.filterMap_cons, ih]
  rw [this, lookup_filterMap_keyed (fun k => some (f k))]

/-! ## Bridging lemmas between the report maps and their lookups -/

theorem report_domains_lookup (hist : List (Item × String)) (d : String) :
    List.lookup d (calculate_overall_score hist).domains =
      if d ∈ historyDomains hist then some (calculate_domain_score hist d) else none := by
  have hdom : (calculate_overall_score hist).domains =
      (historyDomains hist).map (fun d => (d, calculate_domain_score hist d)) := rfl
  rw [hdom, lookup_map_keyed]

theorem report_interp_lookup (hist : List (Item × String)) (d : String) :
    List.lookup d (calculate_overall_score hist).interpretations =
      if d ∈ historyDomains hist then
        (domainRanges d).map (fun ranges => interpLevel ranges (calculate_domain_score hist d))
      else none := by
  have hint : (calculate_overall_score hist).interpretations =
      (historyDomains hist).filterMap
        (fun k => ((domainRanges k).map
          (fun ranges => interpLevel ranges (calculate_domain_score hist k))).map
            (fun v => (k, v))) := by
    show ((historyDomains hist).map
        (fun d => (d, calculate_domain_score hist d))).filterMap
          (fun p => match domainRanges p.1 with
            | some ranges => some (p.1, interpLevel ranges p.2)
            | none => none) = _
    rw [List.filterMap_map]
    apply List.filterMap_congr
    intro k _
    cases hr : domainRanges k <;> simp [hr]
  rw [hint, lookup_filterMap_keyed]

theorem domainAbility_eq_amended (u : Bool) (s : Session) (target : String) :
    domainAbility u s target = amendedDomainAbility u s target := by
  unfold domainAbility domainScoresOf amendedDomainAbility
  cases hu : u && !s.response_history.isEmpty with
  | false =>
    simp only [Bool.false_eq_true, if_false, List.lookup_nil, Option.getD_none]
    rw [if_neg]
    rintro ⟨h1, h2, -⟩
    rw [h1] at hu
    cases hh : s.response_history.isEmpty with
    | true => exact h2 (List.isEmpty_iff.mp hh)
    | false => rw [hh] at hu; simp at hu
  | true =>
    obtain ⟨hu1, hu2⟩ := Bool.and_eq_true_iff.mp hu
    have hne : s.response_history ≠ [] := by
      intro h
      rw [h] at hu2
      simp at hu2
    simp only [if_true]
    rw [report_domains_lookup]
    by_cases hmem : target ∈ historyDomains s.response_history
    · rw [if_pos hmem, if_pos ⟨hu1, hne, hmem⟩, Option.getD_some]
    · rw [if_neg hmem, if_neg (fun h => hmem h.2.2), Option.getD_none]

/-! ## Exhaustion helpers -/

theorem randomChoice_none_iff (r : Nat) (l : List Item) :
    randomChoice r l = none ↔ l = [] := by
  cases l with
  | nil => simp [randomChoice]
  | cons a t =>
    simp only [randomChoice]
    constructor
    · intro h
      exfalso
      have hlt : r % (a :: t).length < (a :: t).length :=
        Nat.mod_lt _ (by simp)
      have hle := List.get?_eq_none.mp h
      omega
    · intro h
      exact absurd h (List.cons_ne_nil a t)

theorem remaining_nil_iff (s : Session) :
    remainingItems s = [] ↔ ∀ it ∈ s.items, it.id ∈ s.answered_items := by
  simp [remainingItems, List.filter_eq_nil_iff]

theorem mem_availableIn {s : Session} {d : String} {a : Item} :
    a ∈ availableIn s d ↔ a ∈ s.items ∧ a.domain = some d ∧ a.id ∉ s.answered_items := by
  simp only [availableIn, domain_items, List.mem_filter, beq_iff_eq, Bool.not_eq_eq_eq_not,
    Bool.not_true]
  constructor
  · rintro ⟨⟨h1, h2⟩, h3⟩
    exact ⟨h1, h2, by simpa using h3⟩
  · rintro ⟨h1, h2, h3⟩
    exact ⟨⟨h1, h2⟩, by simpa using h3⟩

/-! ## Claim theorems -/

/-- C2: for every call to `select_next_item` on a bank declaring at least
one domain, the target domain chosen in that call has a minimal
already-answered count (counted via the response history) over all
declared domains, ties broken by the fixed iteration order of the domain
set — the first minimum encountered wins. -/
theorem target_domain_least_answered (s : Session)
    (h : bankDomains s.items ≠ []) :
    ∃ d, targetDomainOf s = some d ∧ d ∈ bankDomains s.items ∧
      (∀ e ∈ bankDomains s.items,
        domain_counts s.response_history d ≤ domain_counts s.response_history e) ∧
      targetDomainOf s =
        specFirstMin (domain_counts s.response_history) (bankDomains s.items) := by
  cases hbd : bankDomains s.items with
  | nil => exact absurd hbd h
  | cons d0 ds =>
    have heq : targetDomainOf s =
        specFirstMin (domain_counts s.response_history) (bankDomains s.items) :=
      pyMin_eq_specFirstMin _ _
    rw [hbd] at heq
    have hsome := pyFold_eq_specFirstMin (domain_counts s.response_history) ds d0
    refine ⟨pyFold (domain_counts s.response_history) d0 ds, ?_, ?_, ?_, heq⟩
    · exact heq.trans hsome
    · exact specFirstMin_mem hsome
    · exact specFirstMin_min hsome

/-- Witness for C2 at the concrete two-domain session: alpha has one
answered item, beta none, so beta (count 0) is the chosen target. -/
theorem target_domain_least_answered_witness :
    bankDomains cSession.items ≠ [] ∧
    (∃ d, targetDomainOf cSession = some d ∧ d ∈ bankDomains cSession.items ∧
      (∀ e ∈ bankDomains cSession.items,
        domain_counts cSession.response_history d ≤ domain_counts cSession.response_history e) ∧
      targetDomainOf cSession =
        specFirstMin (domain_counts cSession.response_history) (bankDomains cSession.items)) :=
  ⟨by decide, target_domain_least_answered cSession (by decide)⟩

/-- C7: `select_next_item` returns null exactly when every bank item's id
is already answered; whenever some bank item remains unanswered, an item
is returned. -/
theorem select_none_iff_bank_exhausted (r : Nat) (u : Bool) (s : Session) :
    select_next_item r u s = none ↔ ∀ it ∈ s.items, it.id ∈ s.answered_items := by
  cases ht : targetDomainOf s with
  | none =>
    simp only [select_next_item, ht]
    rw [randomChoice_none_iff, remaining_nil_iff]
  | some target =>
    cases hav : availableIn s target with
    | nil =>
      simp only [select_next_item, ht, hav]
      rw [randomChoice_none_iff, remaining_nil_iff]
    | cons a rest =>
      simp only [select_next_item, ht, hav]
      constructor
      · intro hcontra
        exact absurd hcontra (by simp)
      · intro hall
        exfalso
        have hmem : a ∈ availableIn s target := by
          rw [hav]; exact List.mem_cons_self a rest
        obtain ⟨hai, -, hnotans⟩ := mem_availableIn.mp hmem
        exact hnotans (hall a hai)

/-- C9: a `select_next_item` call leaves `ability`, `answered_ids` and
`history` unchanged — the method body binds only locals, so its
state-transformer translation returns the session it was given. -/
theorem select_preserves_session_state (r : Nat) (u : Bool) (s : Session) :
    (select_next_item_op r u s).2.current_ability = s.current_ability ∧
    (select_next_item_op r u s).2.answered_items = s.answered_items ∧
    (select_next_item_op r u s).2.response_history = s.response_history :=
  ⟨rfl, rfl, rfl⟩

/-- C10: an item record with no `type` key scores exactly as the same
item with `type` set to `likert_5`: `item.get("type", "likert_5")`
defaults the missing key. -/
theorem score_missing_type_as_likert5 (it : Item) (resp : String)
    (h : it.type = none) :
    score_response it resp = score_response { it with type := some "likert_5" } resp := by
  cases it with
  | mk id text ty dom diff =>
    cases h
    rfl

/-- Witness for C10: the typeless anxiety item scores like its
`likert_5` twin (in particular response 5 scores 1, not the 0.5 used
for non-Likert types). -/
theorem score_missing_type_as_likert5_witness :
    cNoType.type = none ∧
    score_response cNoType "5" = score_response { cNoType with type := some "likert_5" } "5" ∧
    score_response cNoType "5" = 1 :=
  ⟨rfl, score_missing_type_as_likert5 cNoType "5" rfl, by
    simp +decide [score_response, cNoType, rawLikertScore, likertWeightsFor, likert5Weights,
      pyStartsWith]⟩

/-- C4 counterexample: a `likert_7` item — whose type tag is not
`likert_5` — does not score the fixed neutral 0.5: any type starting
with `likert` falls back to the `likert_5` weight table, so response 5
scores 1. -/
theorem non_likert5_neutral_cex :
    cLikert7.type = some "likert_7" ∧ cLikert7.type ≠ some "likert_5" ∧
    score_response cLikert7 "5" = 1 ∧ (1 : ℚ) ≠ 1/2 := by
  refine ⟨rfl, by decide, ?_, by norm_num⟩
  simp +decide [score_response, cLikert7, rawLikertScore, likertWeightsFor, likert5Weights,
    pyStartsWith]

/-- C4, amended: an item whose type tag does not start with `likert`
scores the fixed neutral 0.5 on every response. -/
theorem non_likert_scores_neutral (it : Item) (t resp : String)
    (h : it.type = some t) (hl : pyStartsWith t "likert" = false) :
    score_response it resp = 1/2 := by
  simp only [score_response, h, Option.getD_some, hl, Bool.false_eq_true, if_false]

/-- Witness for amended C4: a `free_text` item scores 0.5 on response 5. -/
theorem non_likert_scores_neutral_witness :
    cFreeText.type = some "free_text" ∧ pyStartsWith "free_text" "likert" = false ∧
    score_response cFreeText "5" = 1/2 :=
  ⟨rfl, by decide, non_likert_scores_neutral cFreeText "free_text" "5" rfl (by decide)⟩

/-- C5: on a `likert_5` item the raw pre-inversion score maps responses
1–5 exactly to 0, 0.25, 0.5, 0.75, 1, and any other response value
yields the raw score 0.5. -/
theorem likert5_raw_mapping (it : Item) (h : it.type = some "likert_5") :
    rawScoreOf it "1" = 0 ∧ rawScoreOf it "2" = 1/4 ∧ rawScoreOf it "3" = 1/2 ∧
    rawScoreOf it "4" = 3/4 ∧ rawScoreOf it "5" = 1 ∧
    ∀ resp, resp ∉ ["1", "2", "3", "4", "5"] → rawScoreOf it resp = 1/2 := by
  refine ⟨?_, ?_, ?_, ?_, ?_, ?_⟩
  · simp +decide [rawScoreOf, h, rawLikertScore, likertWeightsFor, likert5Weights]
  · simp +decide [rawScoreOf, h, rawLikertScore, likertWeightsFor, likert5Weights]
  · simp +decide [rawScoreOf, h, rawLikertScore, likertWeightsFor, likert5Weights]
  · simp +decide [rawScoreOf, h, rawLikertScore, likertWeightsFor, likert5Weights]
  · simp +decide [rawScoreOf, h, rawLikertScore, likertWeightsFor, likert5Weights]
  · intro resp hresp
    simp only [List.mem_cons, List.not_mem_nil, or_false, not_or] at hresp
    obtain ⟨h1, h2, h3, h4, h5⟩ := hresp
    simp only [rawScoreOf, h, Option.getD_some, rawLikertScore, likertWeightsFor, ite_self,
      likert5Weights, if_neg h1, if_neg h2, if_neg h3, if_neg h4, if_neg h5, Option.getD_none]

/-- Witness for C5 at the concrete `likert_5` item, response 9 standing
in for an unrecognized level. -/
theorem likert5_raw_mapping_witness :
    rawScoreOf exItem2 "1" = 0 ∧ rawScoreOf exItem2 "5" = 1 ∧
    ("9" ∉ (["1", "2", "3", "4", "5"] : List String)) ∧ rawScoreOf exItem2 "9" = 1/2 :=
  ⟨(likert5_raw_mapping exItem2 rfl).1,
   (likert5_raw_mapping exItem2 rfl).2.2.2.2.1,
   by decide,
   (likert5_raw_mapping exItem2 rfl).2.2.2.2.2 "9" (by decide)⟩

/-- C6: a `likert_5` item of domain sociability or conscientiousness
whose text has no negation marker scores 1 minus the raw score the
pair would receive without inversion. -/
theorem inversion_law (it : Item) (resp : String)
    (ht : it.type = some "likert_5")
    (hd : it.domain = some "sociability" ∨ it.domain = some "conscientiousness")
    (hneg : isSubstr negMarker (pyLower it.text.toList) = false) :
    score_response it resp = 1 - rawScoreOf it resp := by
  simp only [score_response, rawScoreOf, ht, Option.getD_some]
  rw [if_pos (by decide), if_pos ⟨hd, hneg⟩]

/-- Witness for C6: the sociability item with neutral text scores
`1 - raw` on response 5. -/
theorem inversion_law_witness :
    cSoc.domain = some "sociability" ∧
    isSubstr negMarker (pyLower cSoc.text.toList) = false ∧
    score_response cSoc "5" = 1 - rawScoreOf cSoc "5" :=
  ⟨rfl, by decide, inversion_law cSoc "5" rfl (Or.inl rfl) (by decide)⟩

/-- C1 counterexample: at the two-domain session (alpha answered with
response 5, ability 1), the call with a scorer and non-empty history has
target domain beta, the scorer's per-domain score for beta is 0.5 —
beta has no history — and the unanswered beta item closest to that score
is `cItemB` (strictly closer than `cItemC`); yet the call returns
`cItemC`, because the code falls back to the session ability 1 when the
target domain is absent from the per-domain score dict. -/
theorem select_domain_ability_cex :
    targetDomainOf cSession = some "beta" ∧
    cItemB ∈ availableIn cSession "beta" ∧
    calculate_domain_score cSession.response_history "beta" = 1/2 ∧
    itemKey (calculate_domain_score cSession.response_history "beta") cItemB <
      itemKey (calculate_domain_score cSession.response_history "beta") cItemC ∧
    select_next_item 0 true cSession = some cItemC ∧
    cItemC ≠ cItemB := by
  have hhist : cSession.response_history = [(cItemA, "5")] := rfl
  have hscore : calculate_domain_score cSession.response_history "beta" = 1/2 := by
    rw [hhist]
    simp +decide [calculate_domain_score, cItemA]
  have hab : cSession.current_ability = 1 := by
    show (calculate_overall_score [(cItemA, "5")]).overall = 1
    simp +decide [calculate_overall_score, historyDomains, calculate_domain_score,
      score_response, rawLikertScore, likertWeightsFor, likert5Weights, pyStartsWith, cItemA]
  have hda : domainAbility true cSession "beta" = 1 := by
    rw [domainAbility, domainScoresOf, hhist]
    simp only [List.isEmpty_cons, Bool.not_false, Bool.and_self, if_true]
    have hlk : List.lookup "beta" (calculate_overall_score [(cItemA, "5")]).domains = none := by
      rw [report_domains_lookup]
      simp +decide [historyDomains, cItemA]
    rw [hlk, Option.getD_none, hab]
  have hava : availableIn cSession "beta" = [cItemB, cItemC] := by
    simp +decide [availableIn, domain_items, cSession, update_ability, initSession, cBank,
      cItemA, cItemB, cItemC]
  refine ⟨by decide, ?_, hscore, ?_, ?_, ?_⟩
  · rw [hava]
    exact List.mem_cons_self cItemB [cItemC]
  · rw [hscore]
    norm_num [itemKey, absq, cItemB, cItemC]
  · have htd : targetDomainOf cSession = some "beta" := by decide
    simp only [select_next_item, htd, hava, pyFold, List.foldl, hda]
    norm_num [itemKey, absq, cItemB, cItemC]
  · intro hcb
    have : cItemC.id = cItemB.id := by rw [hcb]
    simp [cItemB, cItemC] at this

/-- C1, amended: when a target domain exists and it has unanswered
items, the call returns the first unanswered item of the target domain
whose difficulty is closest to `domain_ability`, where `domain_ability`
is the scorer's per-domain score for the target domain when a scorer
and a non-empty history are available *and the target domain occurs in
the history*, and the session's scalar ability otherwise. -/
theorem select_closest_to_amended_ability (r : Nat) (u : Bool) (s : Session) (target : String)
    (ht : targetDomainOf s = some target)
    (hav : availableIn s target ≠ []) :
    select_next_item r u s =
      specFirstMin (itemKey (amendedDomainAbility u s target)) (availableIn s target) := by
  cases hav2 : availableIn s target with
  | nil => exact absurd hav2 hav
  | cons a rest =>
    simp only [select_next_item, ht, hav2]
    rw [domainAbility_eq_amended u s target]
    rw [pyFold_eq_specFirstMin]

/-- Witness for amended C1 at the concrete two-domain session. -/
theorem select_closest_to_amended_ability_witness :
    targetDomainOf cSession = some "beta" ∧
    availableIn cSession "beta" ≠ [] ∧
    select_next_item 0 true cSession =
      specFirstMin (itemKey (amendedDomainAbility true cSession "beta"))
        (availableIn cSession "beta") :=
  ⟨by decide, by decide,
   select_closest_to_amended_ability 0 true cSession "beta" (by decide) (by decide)⟩

/-- C3 counterexample: a response on an item of the unknown domain zzz
produces a report whose interpretations map contains no entry for zzz —
the code only assigns interpretations to the seven domains of
`domain_ranges`, so no default thresholds are applied to unknown
domains. -/
theorem unknown_domain_interp_cex :
    "zzz" ∉ knownDomains ∧
    "zzz" ∈ historyDomains [(cUnknownDomain, "3")] ∧
    List.lookup "zzz" (calculate_overall_score [(cUnknownDomain, "3")]).domains ≠ none ∧
    List.lookup "zzz" (calculate_overall_score [(cUnknownDomain, "3")]).interpretations = none := by
  refine ⟨by decide, by decide, ?_, ?_⟩
  · rw [report_domains_lookup]
    simp +decide [historyDomains, cUnknownDomain]
  · rw [report_interp_lookup]
    simp +decide [historyDomains, cUnknownDomain, domainRanges, knownDomains]

/-- C3, amended: each domain of the response records that belongs to the
fixed known set receives an interpretation from the 0.3/0.7 thresholds
(below 0.3 low, below 0.7 moderate, otherwise high); a domain outside
the known set receives none. -/
theorem interpretations_of_known_domains (hist : List (Item × String)) (d : String)
    (h : d ∈ historyDomains hist) :
    List.lookup d (calculate_overall_score hist).interpretations =
      if d ∈ knownDomains then
        some (if calculate_domain_score hist d < 3/10 then "low"
          else if calculate_domain_score hist d < 7/10 then "moderate" else "high")
      else none := by
  rw [report_interp_lookup, if_pos h]
  unfold domainRanges
  by_cases hk : d ∈ knownDomains
  · rw [if_pos hk, if_pos hk]
    rfl
  · rw [if_neg hk, if_neg hk]
    rfl

/-- Witness for amended C3 at a one-item anxiety history. -/
theorem interpretations_of_known_domains_witness :
    "anxiety" ∈ historyDomains [(cAnx, "5")] ∧
    List.lookup "anxiety" (calculate_overall_score [(cAnx, "5")]).interpretations =
      (if "anxiety" ∈ knownDomains then
        some (if calculate_domain_score [(cAnx, "5")] "anxiety" < 3/10 then "low"
          else if calculate_domain_score [(cAnx, "5")] "anxiety" < 7/10 then "moderate"
          else "high")
      else none) :=
  ⟨by decide, interpretations_of_known_domains [(cAnx, "5")] "anxiety" (by decide)⟩

/-- C8: on the three-item anxiety bank with difficulties 0.2, 0.5, 0.8
and a fresh session of ability 0.5, the first call returns the
difficulty-0.5 item; answering it with response 5 sets the ability to 1;
the next call (with the scorer) returns the difficulty-0.8 item. -/
theorem worked_example_run (r r2 : Nat) (u : Bool) :
    select_next_item r u exSession = some exItem2 ∧
    (update_ability exItem2 "5" exSession).2.current_ability = 1 ∧
    select_next_item r2 true (update_ability exItem2 "5" exSession).2 = some exItem3 := by
  have hab : (update_ability exItem2 "5" exSession).2.current_ability = 1 := by
    show (calculate_overall_score [(exItem2, "5")]).overall = 1
    simp +decide [calculate_overall_score, historyDomains, calculate_domain_score,
      score_response, rawLikertScore, likertWeightsFor, likert5Weights, pyStartsWith, exItem2]
  refine ⟨?_, hab, ?_⟩
  · simp only [select_next_item, targetDomainOf, pyMin, pyFold, bankDomains, exSession,
      initSession, domain_counts, availableIn, domain_items, domainAbility, domainScoresOf,
      itemKey, absq, exItem1, exItem2, exItem3, List.foldl, List.filter, List.isEmpty,
      Bool.and_false, List.lookup, Option.getD]
    norm_num
  · have hhist : (update_ability exItem2 "5" exSession).2.response_history =
        [(exItem2, "5")] := rfl
    have hda : domainAbility true (update_ability exItem2 "5" exSession).2 "anxiety" = 1 := by
      rw [domainAbility, domainScoresOf, hhist]
      simp only [List.isEmpty_cons, Bool.not_false, Bool.and_self, if_true]
      have hlk : List.lookup "anxiety" (calculate_overall_score [(exItem2, "5")]).domains =
          some (calculate_domain_score [(exItem2, "5")] "anxiety") := by
        rw [report_domains_lookup]
        simp +decide [historyDomains, exItem2]
      rw [hlk, Option.getD_some]
      simp +decide [calculate_domain_score, score_response, rawLikertScore, likertWeightsFor,
        likert5Weights, pyStartsWith, exItem2]
    have htd : targetDomainOf (update_ability exItem2 "5" exSession).2 = some "anxiety" := by
      decide
    have hava : availableIn (update_ability exItem2 "5" exSession).2 "anxiety" =
        [exItem1, exItem3] := by
      simp +decide [availableIn, domain_items, update_ability, exSession, initSession,
        exItem1, exItem2, exItem3]
    simp only [select_next_item, htd, hava, pyFold, List.foldl, hda]
    norm_num [itemKey, absq, exItem1, exItem3]

end PsychoTest
